import Mathlib

/-!
# Verification of the actor-spec config-resolution pipeline

Shallow embedding of `src/cli/commands.ts` of the `actor-spec` repository:
the `generate` command, which loads a user config module, resolves its
default export (value / sync factory / async factory), validates the
`actorspecVersion` field, serializes the result to JSON with 2-space
indentation and writes it to `actorspec.json` in a resolved output
directory.

JavaScript numbers are modelled as `Int` (the pipeline's semantics depends
on numbers only through truthiness and decimal printing of integers);
JS strings as Lean `String`; objects as association lists in key order
(JS object literals have distinct keys, later code reads the first match).
Filesystem and module-loading effects are modelled by an explicit
environment record; `generate` returns its result together with the trace
of successful writes, attempted directory creations, and log lines.
-/

namespace ActorSpec

/-- Whether a factory function is synchronous or asynchronous.  After
`await`, both yield their settled return value; the tag is kept so that
sync/async transparency can be stated. -/
inductive FactoryKind where
  | syncF
  | asyncF
deriving DecidableEq, Repr

/-- A JavaScript value as distinguished by the pipeline: `undefined`,
`null`, booleans, numbers (modelled as `Int`), strings, arrays, plain
objects (association lists in insertion order), and zero-argument factory
functions carrying their settled return value. -/
inductive JSVal where
  | vundefined
  | vnull
  | vbool (b : Bool)
  | vnum (n : Int)
  | vstr (s : String)
  | varr (elems : List JSVal)
  | vobj (fields : List (String × JSVal))
  | vfunc (kind : FactoryKind) (ret : JSVal)
deriving Repr

/-- JavaScript `typeof`.  Note `typeof null === "object"` and arrays are
`"object"` as well. -/
def typeof : JSVal → String
  | .vundefined => "undefined"
  | .vnull => "object"
  | .vbool _ => "boolean"
  | .vnum _ => "number"
  | .vstr _ => "string"
  | .varr _ => "object"
  | .vobj _ => "object"
  | .vfunc _ _ => "function"

/-- JavaScript truthiness.  Falsy values: `undefined`, `null`, `false`,
`0`, `""`.  Every object, array and function is truthy. -/
def truthy : JSVal → Bool
  | .vundefined => false
  | .vnull => false
  | .vbool b => b
  | .vnum n => decide (n ≠ 0)
  | .vstr s => decide (s ≠ "")
  | .varr _ => true
  | .vobj _ => true
  | .vfunc _ _ => true

/-- Property read `v.key`: first matching field of an object, `undefined`
otherwise (arrays and functions have no such named property here). -/
def getProp (v : JSVal) (key : String) : JSVal :=
  match v with
  | .vobj fields => (fields.lookup key).getD .vundefined
  | _ => .vundefined

/-- Calling the export if it is a factory and awaiting the result, as in
`typeof configOrInit === 'function' ? await configOrInit() : configOrInit`.
`await` unwraps a promise and passes any plain value through, so a sync
factory's return and an async factory's settled value are treated alike. -/
def callAwait : JSVal → JSVal
  | .vfunc _ ret => ret
  | v => v

/-! ## Decimal printing of integers (JS `ToString` on integral numbers) -/

/-- Decimal digit characters of a natural number, most significant first. -/
def natDigits (n : Nat) : List Char :=
  if h : n < 10 then [Nat.digitChar n]
  else natDigits (n / 10) ++ [Nat.digitChar (n % 10)]
decreasing_by exact Nat.div_lt_self (by omega) (by omega)

/-- Decimal string of an integer, as JS prints an integral number. -/
def intChars (n : Int) : List Char :=
  if n < 0 then '-' :: natDigits n.natAbs else natDigits n.toNat

/-! ## JS string coercion (template-literal interpolation of values)

Used only to build error-message text.  A function's string form is its
source text in JS, which the embedding does not carry; a fixed placeholder
stands in for it. -/

mutual

/-- JS `ToString` coercion as used by template literals.  Arrays join their
elements with `","` (with `null`/`undefined` elements as `""`); plain
objects print as `"[object Object]"`. -/
def jsToString : JSVal → String
  | .vundefined => "undefined"
  | .vnull => "null"
  | .vbool b => cond b "true" "false"
  | .vnum n => String.mk (intChars n)
  | .vstr s => s
  | .varr elems => jsArrToString elems
  | .vobj _ => "[object Object]"
  | .vfunc _ _ => "[function]"

/-- Elements of an array joined with `","` for JS array `toString`. -/
def jsArrToString : List JSVal → String
  | [] => ""
  | [e] => jsElemToString e
  | e :: es => jsElemToString e ++ "," ++ jsArrToString es

/-- A single array element under JS array `toString`: `null` and
`undefined` print as the empty string, everything else as usual. -/
def jsElemToString : JSVal → String
  | .vundefined => ""
  | .vnull => ""
  | .vbool b => cond b "true" "false"
  | .vnum n => String.mk (intChars n)
  | .vstr s => s
  | .varr elems => jsArrToString elems
  | .vobj _ => "[object Object]"
  | .vfunc _ _ => "[function]"

end

/-! ## Path resolution (Node `path.resolve` / `path.relative`, POSIX)

The source assumes the process working directory and `module.path` are
absolute paths. -/

/-- Normalize path segments: drop `.`, resolve `..` against the
accumulated prefix (`..` above the root of an absolute path is dropped). -/
def normSegs : List String → List String → List String
  | acc, [] => acc.reverse
  | acc, "." :: rest => normSegs acc rest
  | acc, ".." :: rest =>
    match acc with
    | [] => normSegs [] rest
    | _ :: acc2 => normSegs acc2 rest
  | acc, seg :: rest => normSegs (seg :: acc) rest

/-- Split characters at `/` separators (the segments of a path, empty
segments included). -/
def splitSlashAux : List Char → List Char → List String
  | cur, [] => [String.mk cur.reverse]
  | cur, c :: rest =>
    if c = '/' then String.mk cur.reverse :: splitSlashAux [] rest
    else splitSlashAux (c :: cur) rest

/-- Whether a path string is absolute (begins with `/`). -/
def startsWithSlash (p : String) : Bool :=
  match p.data with
  | '/' :: _ => true
  | _ => false

/-- Node `path.resolve(base, p)` for an absolute `base`: if `p` is
absolute it is normalized on its own, otherwise it is joined onto `base`
and normalized. -/
def pathResolve (base p : String) : String :=
  let joined := if startsWithSlash p then p else base ++ "/" ++ p
  let segs := (splitSlashAux [] joined.data).filter (fun s => s ≠ "")
  "/" ++ String.intercalate "/" (normSegs [] segs)

/-- Drop the longest common leading run of two segment lists. -/
def dropCommon : List String → List String → List String × List String
  | a :: as, b :: bs =>
    if a = b then dropCommon as bs else (a :: as, b :: bs)
  | as, bs => (as, bs)

/-- Node `path.relative(fromP, toP)` for absolute arguments: normalize
both, strip the common leading segments, then climb out of what remains of
`fromP` with `..` and descend into what remains of `toP`. -/
def pathRelative (fromP toP : String) : String :=
  let fs := (splitSlashAux [] (pathResolve "/" fromP).data).filter (fun s => s ≠ "")
  let ts := (splitSlashAux [] (pathResolve "/" toP).data).filter (fun s => s ≠ "")
  let (fr, tr) := dropCommon fs ts
  String.intercalate "/" (List.replicate fr.length ".." ++ tr)

/-- `absPath` of the source: `path.resolve(cwd, filepath)` with
`cwd = process.cwd()` made an explicit parameter. -/
def absPath (cwd filepath : String) : String :=
  pathResolve cwd filepath

/-- `resolvePath` of the source: the filepath, assumed relative to CWD,
re-expressed relative to the pipeline module's own directory
(`path.relative(module.path, absPath(filepath))`). -/
def resolvePath (cwd modulePath filepath : String) : String :=
  pathRelative modulePath (absPath cwd filepath)

/-! ## JSON serialization (`JSON.stringify(value, null, 2)` of ECMA-262)

Gap of two spaces, members in the object's own key order, `undefined` and
function-valued properties dropped, `undefined`/function array elements
printed as `null`. -/

/-- Indentation at nesting depth `n`: `2 * n` spaces. -/
def indentChars (n : Nat) : List Char :=
  List.replicate (2 * n) ' '

/-- JSON escape of one character inside a quoted string: `"` and `\` get a
backslash, the named control escapes `\b \t \n \f \r` are used where they
exist, remaining control characters become `\u00XX`, everything else is
literal. -/
def escapeChar (c : Char) : List Char :=
  if c = '"' then ['\\', '"']
  else if c = '\\' then ['\\', '\\']
  else if c = '\x08' then ['\\', 'b']
  else if c = '\t' then ['\\', 't']
  else if c = '\n' then ['\\', 'n']
  else if c = '\x0c' then ['\\', 'f']
  else if c = '\r' then ['\\', 'r']
  else if c.toNat < 32 then
    ['\\', 'u', '0', '0', Nat.digitChar (c.toNat / 16), Nat.digitChar (c.toNat % 16)]
  else [c]

/-- Escape every character of a string body. -/
def escapeList : List Char → List Char
  | [] => []
  | c :: cs => escapeChar c ++ escapeList cs

/-- A JSON string literal: quote, escaped body, quote. -/
def quoteChars (s : String) : List Char :=
  '"' :: (escapeList s.data ++ ['"'])

/-- Join pre-rendered members with `",\n" ++ indent`. -/
def joinSep (ind : Nat) : List (List Char) → List Char
  | [] => []
  | [m] => m
  | m :: ms => m ++ ',' :: '\n' :: (indentChars ind ++ joinSep ind ms)

mutual

/-- `SerializeJSONProperty` with a two-space gap: `none` (dropped) for
`undefined` and functions, otherwise the rendered characters. -/
def serVal (ind : Nat) : JSVal → Option (List Char)
  | .vundefined => none
  | .vfunc _ _ => none
  | .vnull => some "null".data
  | .vbool b => some (cond b "true".data "false".data)
  | .vnum n => some (intChars n)
  | .vstr s => some (quoteChars s)
  | .varr l => some (serArr ind l)
  | .vobj fs => some (serObj ind fs)

/-- `SerializeJSONArray`: empty array is `[]`; otherwise elements each on
their own indented line. -/
def serArr (ind : Nat) (l : List JSVal) : List Char :=
  match serElems (ind + 1) l with
  | [] => ['[', ']']
  | es => '[' :: '\n' :: (indentChars (ind + 1) ++ joinSep (ind + 1) es
            ++ '\n' :: (indentChars ind ++ [']']))

/-- Rendered array elements; an element that serializes to nothing
(`undefined` or a function) is rendered as `null`. -/
def serElems (ind : Nat) : List JSVal → List (List Char)
  | [] => []
  | x :: xs => ((serVal ind x).getD "null".data) :: serElems ind xs

/-- `SerializeJSONObject`: empty (after dropping unserializable members)
is `{}`; otherwise `"key": value` members each on their own indented
line, in the object's own key order. -/
def serObj (ind : Nat) (fs : List (String × JSVal)) : List Char :=
  match serMembers (ind + 1) fs with
  | [] => ['{', '}']
  | ms => '{' :: '\n' :: (indentChars (ind + 1) ++ joinSep (ind + 1) ms
            ++ '\n' :: (indentChars ind ++ ['}']))

/-- Rendered object members in key order; a member whose value serializes
to nothing is dropped. -/
def serMembers (ind : Nat) : List (String × JSVal) → List (List Char)
  | [] => []
  | (k, v) :: fs =>
    match serVal ind v with
    | none => serMembers ind fs
    | some sv => (quoteChars k ++ ':' :: ' ' :: sv) :: serMembers ind fs

end

/-- `JSON.stringify(v, null, 2)` as a string.  The `"undefined"` default is
never reached from `generate`: the serialized value there is always a
truthy object or array, for which `serVal` is defined. -/
def jsonStringify (v : JSVal) : String :=
  String.mk ((serVal 0 v).getD "undefined".data)

/-- The serialized characters of a value, with the `"null"` placeholder a
dropped array element would get; on JSON-serializable values this is just
the content of `serVal`. -/
def serValD (ind : Nat) (v : JSVal) : List Char :=
  (serVal ind v).getD "null".data

/-! ## A JSON parser (integer numbers), to state the write/parse roundtrip

`JSON.parse` restricted to the value domain of the embedding: numbers are
integers (no fraction or exponent), and a `\uXXXX` escape must denote a
Unicode scalar value. -/

/-- JSON insignificant whitespace. -/
def isWsChar (c : Char) : Bool :=
  c = ' ' || c = '\n' || c = '\t' || c = '\r'

/-- Drop leading whitespace. -/
def skipWs : List Char → List Char
  | [] => []
  | c :: cs => if isWsChar c then skipWs cs else c :: cs

/-- Whether the input starts with the given character. -/
def headIs (c : Char) : List Char → Bool
  | x :: _ => x = c
  | [] => false

/-- Expect the given literal characters and return what follows. -/
def stripLit : List Char → List Char → Option (List Char)
  | [], cs => some cs
  | l :: ls, c :: cs => if c = l then stripLit ls cs else none
  | _ :: _, [] => none

/-- Value of one hexadecimal digit. -/
def hexVal (c : Char) : Option Nat :=
  if '0' ≤ c ∧ c ≤ '9' then some (c.toNat - '0'.toNat)
  else if 'a' ≤ c ∧ c ≤ 'f' then some (c.toNat - 'a'.toNat + 10)
  else if 'A' ≤ c ∧ c ≤ 'F' then some (c.toNat - 'A'.toNat + 10)
  else none

/-- The character denoted by a single-letter escape. -/
def unescapeChar (e : Char) : Option Char :=
  if e = '"' then some '"'
  else if e = '\\' then some '\\'
  else if e = '/' then some '/'
  else if e = 'b' then some '\x08'
  else if e = 'f' then some '\x0c'
  else if e = 'n' then some '\n'
  else if e = 'r' then some '\r'
  else if e = 't' then some '\t'
  else none

/-- Parse the body of a string literal after the opening quote, up to and
including the closing quote; returns the decoded characters and the rest. -/
def parseStringBody : List Char → Option (List Char × List Char)
  | [] => none
  | c :: cs =>
    if c = '"' then some ([], cs)
    else if c = '\\' then
      match cs with
      | 'u' :: h1 :: h2 :: h3 :: h4 :: cs2 =>
        match hexVal h1, hexVal h2, hexVal h3, hexVal h4 with
        | some a, some b, some c1, some d =>
          let n := ((a * 16 + b) * 16 + c1) * 16 + d
          if h : n.isValidChar then
            (parseStringBody cs2).map (fun p => (Char.ofNatAux n h :: p.1, p.2))
          else none
        | _, _, _, _ => none
      | e :: cs2 =>
        match unescapeChar e with
        | some u => (parseStringBody cs2).map (fun p => (u :: p.1, p.2))
        | none => none
      | [] => none
    else (parseStringBody cs).map (fun p => (c :: p.1, p.2))

/-- Split the longest run of leading decimal digits from the input. -/
def takeDigits : List Char → List Char × List Char
  | [] => ([], [])
  | c :: cs =>
    if c.isDigit then
      let p := takeDigits cs
      (c :: p.1, p.2)
    else ([], c :: cs)

/-- Value of a list of decimal digits, accumulator style. -/
def digitsToNat (acc : Nat) : List Char → Nat
  | [] => acc
  | c :: cs => digitsToNat (acc * 10 + (c.toNat - '0'.toNat)) cs

/-- Parse an integer: optional minus sign and at least one digit. -/
def parseNumber (cs : List Char) : Option (Int × List Char) :=
  if headIs '-' cs then
    match takeDigits cs.tail with
    | ([], _) => none
    | (ds, r) => some (-(digitsToNat 0 ds : Int), r)
  else
    match takeDigits cs with
    | ([], _) => none
    | (ds, r) => some ((digitsToNat 0 ds : Int), r)

/-- The input does not begin with a decimal digit, so a greedy digit run
ending right before it really ends there. -/
def headNotDigit : List Char → Bool
  | [] => true
  | c :: _ => !c.isDigit

mutual

/-- Parse one JSON value (fuel-indexed recursion). -/
def parseVal : Nat → List Char → Option (JSVal × List Char)
  | 0, _ => none
  | fuel + 1, cs =>
    match skipWs cs with
    | [] => none
    | c :: cs2 =>
      if c = 'n' then (stripLit "ull".data cs2).map (fun r => (JSVal.vnull, r))
      else if c = 't' then (stripLit "rue".data cs2).map (fun r => (JSVal.vbool true, r))
      else if c = 'f' then (stripLit "alse".data cs2).map (fun r => (JSVal.vbool false, r))
      else if c = '"' then
        (parseStringBody cs2).map (fun p => (JSVal.vstr (String.mk p.1), p.2))
      else if c = '[' then
        let r0 := skipWs cs2
        if headIs ']' r0 then some (JSVal.varr [], r0.tail)
        else (parseItems fuel r0).map (fun p => (JSVal.varr p.1, p.2))
      else if c = '{' then
        let r0 := skipWs cs2
        if headIs '}' r0 then some (JSVal.vobj [], r0.tail)
        else (parseFields fuel r0).map (fun p => (JSVal.vobj p.1, p.2))
      else (parseNumber (c :: cs2)).map (fun p => (JSVal.vnum p.1, p.2))

/-- Parse the comma-separated elements of a nonempty array, up to and
including the closing bracket. -/
def parseItems : Nat → List Char → Option (List JSVal × List Char)
  | 0, _ => none
  | fuel + 1, cs =>
    match parseVal fuel cs with
    | none => none
    | some (v, r) =>
      let r1 := skipWs r
      if headIs ',' r1 then (parseItems fuel r1.tail).map (fun p => (v :: p.1, p.2))
      else if headIs ']' r1 then some ([v], r1.tail)
      else none

/-- Parse the members of a nonempty object, up to and including the
closing brace. -/
def parseFields : Nat → List Char → Option (List (String × JSVal) × List Char)
  | 0, _ => none
  | fuel + 1, cs =>
    let c0 := skipWs cs
    if headIs '"' c0 then
      match parseStringBody c0.tail with
      | none => none
      | some (k, r2) =>
        let r3 := skipWs r2
        if headIs ':' r3 then
          match parseVal fuel r3.tail with
          | none => none
          | some (v, r4) =>
            let r5 := skipWs r4
            if headIs ',' r5 then
              (parseFields fuel r5.tail).map (fun p => ((String.mk k, v) :: p.1, p.2))
            else if headIs '}' r5 then some ([(String.mk k, v)], r5.tail)
            else none
        else none
    else none

end

/-- `JSON.parse` over the embedding's value domain: parse one value and
require that only whitespace remains. -/
def jsonParse (s : String) : Option JSVal :=
  match parseVal (s.length + 1) s.data with
  | some (v, r) => if skipWs r = [] then some v else none
  | none => none

/-! ## JSON-serializable values and a size measure for the parser fuel -/

mutual

/-- A value in the image of JSON data: no `undefined`, no functions,
anywhere. -/
def isJson : JSVal → Bool
  | .vundefined => false
  | .vfunc _ _ => false
  | .vnull => true
  | .vbool _ => true
  | .vnum _ => true
  | .vstr _ => true
  | .varr l => isJsonL l
  | .vobj fs => isJsonF fs

/-- All elements JSON-serializable. -/
def isJsonL : List JSVal → Bool
  | [] => true
  | x :: xs => isJson x && isJsonL xs

/-- All field values JSON-serializable. -/
def isJsonF : List (String × JSVal) → Bool
  | [] => true
  | (_, v) :: fs => isJson v && isJsonF fs

end

mutual

/-- Fuel needed by `parseVal` on the serialization of a value. -/
def sizeV : JSVal → Nat
  | .varr l => 1 + sizeL l
  | .vobj fs => 1 + sizeF fs
  | _ => 1

/-- Fuel needed by `parseItems` on serialized elements. -/
def sizeL : List JSVal → Nat
  | [] => 1
  | x :: xs => 1 + sizeV x + sizeL xs

/-- Fuel needed by `parseFields` on serialized members. -/
def sizeF : List (String × JSVal) → Nat
  | [] => 1
  | (_, v) :: fs => 1 + sizeV v + sizeF fs

end

/-! ## The `generate` pipeline -/

/-- Arguments of `generate`: the CWD-relative config path, the optional
CWD-relative output directory, and the logging switch. -/
structure GenArgs where
  config : String
  outDir : Option String := none
  silent : Bool := false

/-- The effectful surroundings of one `generate` run: the working
directory, the pipeline module's own directory (`module.path`), the module
loader (`require(p).default`, whose failure message propagates unchanged),
and the filesystem operations. -/
structure Env where
  cwd : String
  modulePath : String
  require : String → Except String JSVal
  existsSync : String → Bool
  mkdir : String → Except String Unit
  writeFile : String → String → Except String Unit

/-- Observable outcome of a `generate` run: the result (an error carries
the thrown message), the directories whose creation was attempted, the
successfully written files with their contents, and the log lines emitted
to standard output. -/
structure GenResult where
  result : Except String Unit
  mkdirs : List String
  writes : List (String × String)
  logs : List String
deriving Repr

/-- Message of the error thrown when the default export is missing or of a
wrong type (line 45 of the source). -/
def invalidExportMsg (absConfigPath : String) (v : JSVal) : String :=
  "Failed to import actorspec from path " ++ absConfigPath ++ ", got "
    ++ jsToString v ++ " instead"

/-- Message of the error thrown by the resolve check (line 51). -/
def unresolvedMsg (absConfigPath : String) (v : JSVal) : String :=
  "Failed to import actorspec from path " ++ absConfigPath
    ++ ", the import did not resolve to object, got " ++ jsToString v ++ " instead"

/-- Message of the error thrown when `actorspecVersion` is falsy (line 55). -/
def missingVersionMsg (absConfigPath : String) : String :=
  "Invalid actorspec object imported from path " ++ absConfigPath
    ++ ", config.actorspecVersion is missing"

/-- JS truthiness of the optional `outDir` string: `undefined` and the
empty string are falsy. -/
def optTruthy : Option String → Bool
  | none => false
  | some s => decide (s ≠ "")

/-- Line 60 of the source: `outDir ? outDir : fs.existsSync(absPath('./.actor')) ? './.actor' : '.'`. -/
def resolveOutDir (outDir : Option String) (actorDirExists : Bool) : String :=
  if optTruthy outDir then outDir.getD ""
  else if actorDirExists then "./.actor"
  else "."

/-- The `generate` command (lines 25-69 of the source), step for step:
compute the absolute and loader-relative config paths, load the module,
reject a missing or mistyped default export, call the export if it is a
function and await the result, run the resolve check and the version
check, serialize, resolve the output directory, create it recursively and
write `actorspec.json`. -/
def generate (args : GenArgs) (env : Env) : GenResult :=
  let log : String → List String := fun m => if args.silent then [] else [m]
  let absConfigPath := absPath env.cwd args.config
  let configPath := resolvePath env.cwd env.modulePath args.config
  let logs1 := log ("Importing file from " ++ absConfigPath)
  match env.require configPath with
  | .error e => { result := .error e, mkdirs := [], writes := [], logs := logs1 }
  | .ok configOrInit =>
  if !truthy configOrInit || !(["function", "object"].contains (typeof configOrInit)) then
    { result := .error (invalidExportMsg absConfigPath configOrInit),
      mkdirs := [], writes := [], logs := logs1 }
  else
  let logs2 := logs1 ++ log "Actorspec found! Resolving..."
  let resolvedConfig := if typeof configOrInit == "function" then callAwait configOrInit else configOrInit
  if !truthy resolvedConfig || !(typeof configOrInit == "object") then
    { result := .error (unresolvedMsg absConfigPath configOrInit),
      mkdirs := [], writes := [], logs := logs2 }
  else
  if !truthy (getProp resolvedConfig "actorspecVersion") then
    { result := .error (missingVersionMsg absConfigPath),
      mkdirs := [], writes := [], logs := logs2 }
  else
  let jsonConfig := jsonStringify resolvedConfig
  let outDirUsed := resolveOutDir args.outDir (env.existsSync (absPath env.cwd "./.actor"))
  let absOutDirPath := absPath env.cwd outDirUsed
  let absOutFilePath := pathResolve absOutDirPath "actorspec.json"
  let logs3 := logs2 ++ log ("Writing resolved config to file " ++ absOutFilePath)
  match env.mkdir absOutDirPath with
  | .error e =>
      { result := .error e, mkdirs := [absOutDirPath], writes := [], logs := logs3 }
  | .ok _ =>
  match env.writeFile absOutFilePath jsonConfig with
  | .error e =>
      { result := .error e, mkdirs := [absOutDirPath], writes := [], logs := logs3 }
  | .ok _ =>
      { result := .ok (), mkdirs := [absOutDirPath],
        writes := [(absOutFilePath, jsonConfig)], logs := logs3 ++ log "Done!" }

/-- Substring test used to state "the error message contains the path":
`strContains s sub` holds when `sub` occurs contiguously inside `s`. -/
def strContains (s sub : String) : Bool :=
  decide (sub.data <:+: s.data)

/-! ## Concrete fixtures for evaluating the pipeline -/

/-- A sample valid config object: non-zero version plus a nested record. -/
def sampleConfig : JSVal :=
  .vobj [("actorspecVersion", .vnum 1), ("actor", .vobj [("title", .vstr "Demo")])]

/-- An environment whose module loader yields the given default export,
whose CWD has no `.actor` subdirectory, and whose filesystem operations
succeed. -/
def okEnv (v : JSVal) : Env where
  cwd := "/home/user/proj"
  modulePath := "/opt/actor-spec/dist/cli"
  require := fun _ => .ok v
  existsSync := fun _ => false
  mkdir := fun _ => .ok ()
  writeFile := fun _ _ => .ok ()

/-- An environment whose module load throws with the given message. -/
def failEnv (msg : String) : Env :=
  { okEnv .vnull with require := fun _ => .error msg }
/-! ## Spec-side path helpers (refinement check for the path component)

Stated from the specification's own words, to be compared with the
source-side `absPath` / `resolvePath`. -/

/-- Modelled from the spec: `toAbsolute(path)` returns `resolve(cwd, path)`. -/
def toAbsolute_spec (cwd p : String) : String :=
  pathResolve cwd p

/-- Modelled from the spec: `toLoaderRelative(path)` returns the path of
`toAbsolute(path)` expressed relative to the pipeline module's own
directory. -/
def toLoaderRelative_spec (cwd modulePath p : String) : String :=
  pathRelative modulePath (toAbsolute_spec cwd p)


/-! ## Decimal digits: printing and reading back -/

/-- A digit character's facts, for `m < 10`. -/
theorem digitChar_facts {m : Nat} (h : m < 10) :
    (Nat.digitChar m).isDigit = true ∧ 48 ≤ (Nat.digitChar m).toNat ∧
      (Nat.digitChar m).toNat ≤ 57 := by
  interval_cases m <;> exact ⟨by decide, by decide, by decide⟩

theorem natDigits_ne_nil (n : Nat) : natDigits n ≠ [] := by
  rw [natDigits.eq_def]
  split <;> simp

theorem natDigits_all (n : Nat) :
    ∀ c ∈ natDigits n, c.isDigit = true ∧ 48 ≤ c.toNat ∧ c.toNat ≤ 57 := by
  induction n using Nat.strong_induction_on with
  | _ n ih =>
    rw [natDigits.eq_def]
    split
    · next h =>
      intro c hc
      simp only [List.mem_singleton] at hc
      subst hc
      exact digitChar_facts h
    · next h =>
      intro c hc
      simp only [List.mem_append, List.mem_singleton] at hc
      rcases hc with hc | hc
      · exact ih (n / 10) (Nat.div_lt_self (by omega) (by omega)) c hc
      · subst hc
        exact digitChar_facts (Nat.mod_lt _ (by omega))

theorem char_ne_of_toNat_out {c d : Char} (h48 : 48 ≤ c.toNat) (h57 : c.toNat ≤ 57)
    (hd : d.toNat < 48 ∨ 57 < d.toNat) : c ≠ d := by
  intro he
  subst he
  omega

theorem isWsChar_false_of_digit {c : Char} (h48 : 48 ≤ c.toNat) (h57 : c.toNat ≤ 57) :
    isWsChar c = false := by
  have h1 : c ≠ ' ' := char_ne_of_toNat_out h48 h57 (by decide)
  have h2 : c ≠ '\n' := char_ne_of_toNat_out h48 h57 (by decide)
  have h3 : c ≠ '\t' := char_ne_of_toNat_out h48 h57 (by decide)
  have h4 : c ≠ '\r' := char_ne_of_toNat_out h48 h57 (by decide)
  simp [isWsChar, h1, h2, h3, h4]

theorem digitsToNat_cons (a : Nat) (c : Char) (cs : List Char) :
    digitsToNat a (c :: cs) = digitsToNat (a * 10 + (c.toNat - '0'.toNat)) cs := rfl

theorem digitsToNat_append (a : Nat) (ds es : List Char) :
    digitsToNat a (ds ++ es) = digitsToNat (digitsToNat a ds) es := by
  induction ds generalizing a with
  | nil => rfl
  | cons c cs ih => rw [List.cons_append, digitsToNat_cons, ih, digitsToNat_cons]

theorem digitChar_toNat_sub {m : Nat} (h : m < 10) :
    (Nat.digitChar m).toNat - '0'.toNat = m := by
  interval_cases m <;> decide

theorem natDigits_eq_lt {n : Nat} (h : n < 10) : natDigits n = [Nat.digitChar n] := by
  rw [natDigits.eq_def]
  simp [h]

theorem natDigits_eq_ge {n : Nat} (h : ¬n < 10) :
    natDigits n = natDigits (n / 10) ++ [Nat.digitChar (n % 10)] := by
  rw [natDigits.eq_def]
  simp [h]

theorem digitsToNat_natDigits (n : Nat) :
    ∀ a, digitsToNat a (natDigits n) = a * 10 ^ (natDigits n).length + n := by
  induction n using Nat.strong_induction_on with
  | _ n ih =>
    intro a
    by_cases h : n < 10
    · rw [natDigits_eq_lt h, digitsToNat_cons, digitChar_toNat_sub h]
      show a * 10 + n = a * 10 ^ ([Nat.digitChar n].length) + n
      simp
    · have hd10 : n / 10 < n := Nat.div_lt_self (by omega) (by omega)
      rw [natDigits_eq_ge h, digitsToNat_append, ih (n / 10) hd10 a, digitsToNat_cons,
        digitChar_toNat_sub (Nat.mod_lt n (by omega : 0 < 10))]
      show (a * 10 ^ (natDigits (n / 10)).length + n / 10) * 10 + n % 10
        = a * 10 ^ (natDigits (n / 10) ++ [Nat.digitChar (n % 10)]).length + n
      rw [List.length_append, List.length_singleton, pow_succ]
      have hmod : n / 10 * 10 + n % 10 = n := by omega
      calc (a * 10 ^ (natDigits (n / 10)).length + n / 10) * 10 + n % 10
          = a * (10 ^ (natDigits (n / 10)).length * 10) + (n / 10 * 10 + n % 10) := by ring
        _ = a * (10 ^ (natDigits (n / 10)).length * 10) + n := by rw [hmod]

theorem digitsToNat_natDigits_zero (n : Nat) : digitsToNat 0 (natDigits n) = n := by
  simpa using digitsToNat_natDigits n 0

theorem takeDigits_spec (ds rest : List Char) (hds : ∀ c ∈ ds, c.isDigit = true)
    (hr : headNotDigit rest = true) : takeDigits (ds ++ rest) = (ds, rest) := by
  induction ds with
  | nil =>
    cases rest with
    | nil => rfl
    | cons c cs =>
      simp only [headNotDigit, Bool.not_eq_true'] at hr
      simp [takeDigits, hr]
  | cons c cs ih =>
    have hc := hds c (by simp)
    simp [takeDigits, hc, ih (fun x hx => hds x (by simp [hx]))]

theorem parseNumber_intChars (n : Int) (rest : List Char) (hr : headNotDigit rest = true) :
    parseNumber (intChars n ++ rest) = some (n, rest) := by
  obtain ⟨d, ds, hEq⟩ := List.exists_cons_of_ne_nil (natDigits_ne_nil n.natAbs)
  have hall := natDigits_all n.natAbs
  have hTake : takeDigits (natDigits n.natAbs ++ rest) = (natDigits n.natAbs, rest) :=
    takeDigits_spec _ _ (fun c hc => (hall c hc).1) hr
  have hVal : digitsToNat 0 (natDigits n.natAbs) = n.natAbs := digitsToNat_natDigits_zero _
  have hd : d.isDigit = true ∧ 48 ≤ d.toNat ∧ d.toNat ≤ 57 := hall d (by simp [hEq])
  have hdm : d ≠ '-' := char_ne_of_toNat_out hd.2.1 hd.2.2 (by decide)
  rw [hEq] at hTake hVal
  rw [List.cons_append] at hTake
  by_cases hn : n < 0
  · have h1 : intChars n = '-' :: natDigits n.natAbs := by simp [intChars, hn]
    rw [h1, hEq]
    simp only [parseNumber, List.cons_append, List.tail_cons]
    rw [if_pos (by simp [headIs]), hTake]
    simp only []
    rw [hVal]
    have h2 : -((n.natAbs : Nat) : Int) = n := by omega
    rw [h2]
  · have h1 : intChars n = natDigits n.natAbs := by
      simp only [intChars, if_neg hn]
      rw [show n.natAbs = n.toNat by omega]
    rw [h1, hEq]
    simp only [parseNumber, List.cons_append]
    rw [if_neg (by simp [headIs, hdm]), hTake]
    simp only []
    rw [hVal]
    have h2 : ((n.natAbs : Nat) : Int) = n := by omega
    rw [h2]

/-! ## Whitespace and parser congruence -/

theorem skipWs_cons_not {c : Char} (h : isWsChar c = false) (cs : List Char) :
    skipWs (c :: cs) = c :: cs := by
  simp [skipWs, h]

theorem skipWs_replicate_space (k : Nat) (cs : List Char) :
    skipWs (List.replicate k ' ' ++ cs) = skipWs cs := by
  induction k with
  | zero => rfl
  | succ k ih => simpa [List.replicate_succ, skipWs, isWsChar] using ih

theorem skipWs_indent (n : Nat) (cs : List Char) :
    skipWs (indentChars n ++ cs) = skipWs cs := by
  simpa [indentChars] using skipWs_replicate_space (2 * n) cs

theorem skipWs_newline (cs : List Char) : skipWs ('\n' :: cs) = skipWs cs := by
  simp [skipWs, isWsChar]

theorem skipWs_space (cs : List Char) : skipWs (' ' :: cs) = skipWs cs := by
  simp [skipWs, isWsChar]

theorem skipWs_idem (cs : List Char) : skipWs (skipWs cs) = skipWs cs := by
  induction cs with
  | nil => rfl
  | cons c cs ih =>
    by_cases h : isWsChar c = true
    · rw [show skipWs (c :: cs) = skipWs cs from by simp [skipWs, h], ih]
    · have h' : isWsChar c = false := by simpa using h
      rw [skipWs_cons_not h', skipWs_cons_not h']

theorem parseVal_congr {a b : List Char} (h : skipWs a = skipWs b) (fuel : Nat) :
    parseVal fuel a = parseVal fuel b := by
  cases fuel with
  | zero => rfl
  | succ fuel =>
    simp only [parseVal]
    rw [h]

theorem parseItems_congr {a b : List Char} (h : skipWs a = skipWs b) (fuel : Nat) :
    parseItems fuel a = parseItems fuel b := by
  cases fuel with
  | zero => rfl
  | succ fuel =>
    simp only [parseItems]
    rw [parseVal_congr h fuel]

theorem parseFields_congr {a b : List Char} (h : skipWs a = skipWs b) (fuel : Nat) :
    parseFields fuel a = parseFields fuel b := by
  cases fuel with
  | zero => rfl
  | succ fuel =>
    simp only [parseFields]
    rw [h]

/-! ## String-literal roundtrip -/

theorem hexVal_digitChar {m : Nat} (h : m < 16) : hexVal (Nat.digitChar m) = some m := by
  interval_cases m <;> decide

theorem ofNatAux_toNat {c : Char} (h : c.toNat.isValidChar) : Char.ofNatAux c.toNat h = c := by
  apply Char.ext
  apply UInt32.eq_of_toBitVec_eq
  apply BitVec.eq_of_toNat_eq
  simp [Char.ofNatAux, Char.toNat, BitVec.ofNatLt]
  rfl

theorem parseStringBody_escape (cs rest : List Char) :
    parseStringBody (escapeList cs ++ '"' :: rest) = some (cs, rest) := by
  induction cs with
  | nil =>
    show parseStringBody ('"' :: rest) = some ([], rest)
    rw [parseStringBody.eq_def]
    simp only []
    rw [if_pos trivial]
  | cons c cs ih =>
    show parseStringBody ((escapeChar c ++ escapeList cs) ++ '"' :: rest) = _
    rw [List.append_assoc]
    by_cases h1 : c = '"'
    · subst h1
      simp [escapeChar, parseStringBody, unescapeChar, ih]
    by_cases h2 : c = '\\'
    · subst h2
      simp [escapeChar, parseStringBody, unescapeChar, ih]
    by_cases h3 : c = '\x08'
    · subst h3
      simp [escapeChar, parseStringBody, unescapeChar, ih]
    by_cases h4 : c = '\t'
    · subst h4
      simp [escapeChar, parseStringBody, unescapeChar, ih]
    by_cases h5 : c = '\n'
    · subst h5
      simp [escapeChar, parseStringBody, unescapeChar, ih]
    by_cases h6 : c = '\x0c'
    · subst h6
      simp [escapeChar, parseStringBody, unescapeChar, ih]
    by_cases h7 : c = '\r'
    · subst h7
      simp [escapeChar, parseStringBody, unescapeChar, ih]
    by_cases h8 : c.toNat < 32
    · have hEsc : escapeChar c =
        ['\\', 'u', '0', '0', Nat.digitChar (c.toNat / 16), Nat.digitChar (c.toNat % 16)] := by
        simp [escapeChar, h1, h2, h3, h4, h5, h6, h7, h8]
      rw [hEsc]
      show parseStringBody ('\\' :: 'u' :: '0' :: '0' :: Nat.digitChar (c.toNat / 16)
        :: Nat.digitChar (c.toNat % 16) :: (escapeList cs ++ '"' :: rest)) = _
      have hv0 : hexVal '0' = some 0 := rfl
      have hv1 : hexVal (Nat.digitChar (c.toNat / 16)) = some (c.toNat / 16) :=
        hexVal_digitChar (by omega)
      have hv2 : hexVal (Nat.digitChar (c.toNat % 16)) = some (c.toNat % 16) :=
        hexVal_digitChar (by omega)
      have hvalid : c.toNat.isValidChar := Or.inl (by omega)
      have hn : ((0 * 16 + 0) * 16 + c.toNat / 16) * 16 + c.toNat % 16 = c.toNat := by omega
      rw [parseStringBody.eq_def]
      simp only []
      rw [if_pos trivial]
      simp only [hv0, hv1, hv2]
      simp only [hn]
      rw [dif_pos hvalid, ih]
      simp [ofNatAux_toNat hvalid]
    · have hEsc : escapeChar c = [c] := by
        simp [escapeChar, h1, h2, h3, h4, h5, h6, h7, h8]
      rw [hEsc]
      show parseStringBody (c :: (escapeList cs ++ '"' :: rest)) = _
      rw [parseStringBody.eq_def]
      simp only []
      rw [if_neg h1, if_neg h2, ih]
      rfl

/-! ## Serialization shape facts -/

theorem serVal_eq_some {v : JSVal} (h : isJson v = true) (ind : Nat) :
    serVal ind v = some (serValD ind v) := by
  cases v <;> simp [serVal, serValD] <;> simp [isJson] at h

theorem serElems_eq_map (ind : Nat) (l : List JSVal) :
    serElems ind l = l.map (serValD ind) := by
  induction l with
  | nil => simp [serElems]
  | cons x xs ih => simp [serElems, serValD, ih]

theorem serMembers_eq_map (ind : Nat) (fs : List (String × JSVal)) (h : isJsonF fs = true) :
    serMembers ind fs
      = fs.map (fun kv => quoteChars kv.1 ++ ':' :: ' ' :: serValD ind kv.2) := by
  induction fs with
  | nil => simp [serMembers]
  | cons kv fs ih =>
    obtain ⟨k, v⟩ := kv
    simp only [isJsonF, Bool.and_eq_true] at h
    simp [serMembers, serVal_eq_some h.1, ih h.2]

theorem sizeV_pos (v : JSVal) : 1 ≤ sizeV v := by
  cases v <;> simp [sizeV]

theorem sizeL_pos (l : List JSVal) : 1 ≤ sizeL l := by
  cases l with
  | nil => simp [sizeL]
  | cons x xs =>
    simp [sizeL]
    omega

theorem sizeF_pos (fs : List (String × JSVal)) : 1 ≤ sizeF fs := by
  cases fs with
  | nil => simp [sizeF]
  | cons kv fs =>
    obtain ⟨k, v⟩ := kv
    simp [sizeF]
    omega

theorem serValD_head {v : JSVal} (h : isJson v = true) (ind : Nat) :
    ∃ c cs, serValD ind v = c :: cs ∧ isWsChar c = false ∧ c ≠ ']' ∧ c ≠ '}' := by
  cases v with
  | vundefined => simp [isJson] at h
  | vfunc k r => simp [isJson] at h
  | vnull =>
    refine ⟨'n', ['u', 'l', 'l'], ?_, by decide, by decide, by decide⟩
    simp [serValD, serVal]
  | vbool b =>
    cases b
    · refine ⟨'f', ['a', 'l', 's', 'e'], ?_, by decide, by decide, by decide⟩
      simp [serValD, serVal]
    · refine ⟨'t', ['r', 'u', 'e'], ?_, by decide, by decide, by decide⟩
      simp [serValD, serVal]
  | vnum n =>
    have hD : serValD ind (JSVal.vnum n) = intChars n := by simp [serValD, serVal]
    by_cases hn : n < 0
    · refine ⟨'-', natDigits n.natAbs, ?_, by decide, by decide, by decide⟩
      rw [hD]
      simp [intChars, hn]
    · obtain ⟨d, ds, hEq⟩ := List.exists_cons_of_ne_nil (natDigits_ne_nil n.toNat)
      have hd := (natDigits_all n.toNat d (by simp [hEq])).2
      refine ⟨d, ds, ?_, isWsChar_false_of_digit hd.1 hd.2, ?_, ?_⟩
      · rw [hD]
        simp [intChars, hn, hEq]
      · exact char_ne_of_toNat_out hd.1 hd.2 (by decide)
      · exact char_ne_of_toNat_out hd.1 hd.2 (by decide)
  | vstr s =>
    refine ⟨'"', escapeList s.data ++ ['"'], ?_, by decide, by decide, by decide⟩
    simp [serValD, serVal, quoteChars]
  | varr l =>
    cases hE : serElems (ind + 1) l with
    | nil =>
      refine ⟨'[', [']'], ?_, by decide, by decide, by decide⟩
      simp [serValD, serVal, serArr, hE]
    | cons m ms =>
      refine ⟨'[', '\n' :: (indentChars (ind + 1) ++ joinSep (ind + 1) (m :: ms)
        ++ '\n' :: (indentChars ind ++ [']'])), ?_, by decide, by decide, by decide⟩
      simp [serValD, serVal, serArr, hE]
  | vobj fs =>
    cases hE : serMembers (ind + 1) fs with
    | nil =>
      refine ⟨'{', ['}'], ?_, by decide, by decide, by decide⟩
      simp [serValD, serVal, serObj, hE]
    | cons m ms =>
      refine ⟨'{', '\n' :: (indentChars (ind + 1) ++ joinSep (ind + 1) (m :: ms)
        ++ '\n' :: (indentChars ind ++ ['}'])), ?_, by decide, by decide, by decide⟩
      simp [serValD, serVal, serObj, hE]

/-! ## The serialize/parse roundtrip -/

theorem strMk_data (s : String) : String.mk s.data = s := rfl

theorem intChars_head (n : Int) : ∃ d ds, intChars n = d :: ds ∧ isWsChar d = false ∧
    d ≠ 'n' ∧ d ≠ 't' ∧ d ≠ 'f' ∧ d ≠ '"' ∧ d ≠ '[' ∧ d ≠ '{' := by
  by_cases hn : n < 0
  · refine ⟨'-', natDigits n.natAbs, by simp [intChars, hn], by decide, by decide, by decide,
      by decide, by decide, by decide, by decide⟩
  · obtain ⟨d, ds, hEq⟩ := List.exists_cons_of_ne_nil (natDigits_ne_nil n.toNat)
    have hd := (natDigits_all n.toNat d (by simp [hEq])).2
    refine ⟨d, ds, by simp [intChars, hn, hEq], isWsChar_false_of_digit hd.1 hd.2,
      char_ne_of_toNat_out hd.1 hd.2 (by decide), char_ne_of_toNat_out hd.1 hd.2 (by decide),
      char_ne_of_toNat_out hd.1 hd.2 (by decide), char_ne_of_toNat_out hd.1 hd.2 (by decide),
      char_ne_of_toNat_out hd.1 hd.2 (by decide), char_ne_of_toNat_out hd.1 hd.2 (by decide)⟩

theorem joinSep_single (ind : Nat) (m : List Char) : joinSep ind [m] = m := by
  simp [joinSep]

theorem joinSep_cons2 (ind : Nat) (m1 m2 : List Char) (ms : List (List Char)) :
    joinSep ind (m1 :: m2 :: ms)
      = m1 ++ ',' :: '\n' :: (indentChars ind ++ joinSep ind (m2 :: ms)) := by
  simp [joinSep]

theorem joinSep_cons_eq (ind : Nat) (m : List Char) (ms : List (List Char)) :
    ∃ t, joinSep ind (m :: ms) = m ++ t := by
  cases ms with
  | nil => exact ⟨[], by simp [joinSep]⟩
  | cons m2 ms => exact ⟨',' :: '\n' :: (indentChars ind ++ joinSep ind (m2 :: ms)),
      by simp [joinSep]⟩

set_option maxHeartbeats 1000000 in
theorem parse_ser (fuel : Nat) :
    (∀ v ind rest, isJson v = true → sizeV v ≤ fuel → headNotDigit rest = true →
      parseVal fuel (serValD ind v ++ rest) = some (v, rest)) ∧
    (∀ l ind k rest, isJsonL l = true → l ≠ [] → sizeL l ≤ fuel →
      parseItems fuel (joinSep ind (serElems ind l)
        ++ '\n' :: (indentChars k ++ ']' :: rest)) = some (l, rest)) ∧
    (∀ fs ind k rest, isJsonF fs = true → fs ≠ [] → sizeF fs ≤ fuel →
      parseFields fuel (joinSep ind (serMembers ind fs)
        ++ '\n' :: (indentChars k ++ '}' :: rest)) = some (fs, rest)) := by
  induction fuel using Nat.strong_induction_on with
  | _ fuel ih =>
  cases fuel with
  | zero =>
    refine ⟨?_, ?_, ?_⟩
    · intro v ind rest h hs hg
      have := sizeV_pos v
      omega
    · intro l ind k rest h hne hs
      have := sizeL_pos l
      omega
    · intro fs ind k rest h hne hs
      have := sizeF_pos fs
      omega
  | succ fuel =>
  have ihV := (ih fuel (by omega)).1
  have ihL := (ih fuel (by omega)).2.1
  have ihF := (ih fuel (by omega)).2.2
  refine ⟨?_, ?_, ?_⟩
  · intro v ind rest h hs hg
    cases v with
    | vundefined => simp [isJson] at h
    | vfunc kk r => simp [isJson] at h
    | vnull =>
      have hD : serValD ind JSVal.vnull = ['n', 'u', 'l', 'l'] := by
        simp [serValD, serVal]
      rw [hD]
      rw [parseVal.eq_def]
      simp only [List.cons_append]
      rw [skipWs_cons_not (by decide)]
      simp [stripLit, headIs]
    | vbool b =>
      cases b with
      | false =>
        have hD : serValD ind (JSVal.vbool false) = ['f', 'a', 'l', 's', 'e'] := by
          simp [serValD, serVal]
        rw [hD]
        rw [parseVal.eq_def]
        simp only [List.cons_append]
        rw [skipWs_cons_not (by decide)]
        simp [stripLit, headIs]
      | true =>
        have hD : serValD ind (JSVal.vbool true) = ['t', 'r', 'u', 'e'] := by
          simp [serValD, serVal]
        rw [hD]
        rw [parseVal.eq_def]
        simp only [List.cons_append]
        rw [skipWs_cons_not (by decide)]
        simp [stripLit, headIs]
    | vstr s =>
      have hD : serValD ind (JSVal.vstr s) = '"' :: (escapeList s.data ++ ['"']) := by
        simp [serValD, serVal, quoteChars]
      rw [hD]
      rw [parseVal.eq_def]
      simp only [List.cons_append]
      rw [skipWs_cons_not (by decide)]
      simp only [List.append_assoc, List.singleton_append]
      rw [if_pos trivial, parseStringBody_escape]
      simp [strMk_data]
    | vnum n =>
      have hD : serValD ind (JSVal.vnum n) = intChars n := by
        simp [serValD, serVal]
      rw [hD]
      obtain ⟨d, ds, hEq, hw, h1, h2, h3, h4, h5, h6⟩ := intChars_head n
      rw [hEq]
      rw [parseVal.eq_def]
      simp only [List.cons_append]
      rw [skipWs_cons_not hw]
      simp only []
      rw [if_neg h1, if_neg h2, if_neg h3, if_neg h4, if_neg h5, if_neg h6]
      rw [show d :: (ds ++ rest) = (d :: ds) ++ rest from rfl, ← hEq,
        parseNumber_intChars n rest hg]
      rfl
    | varr l =>
      have hJ : isJsonL l = true := by simpa [isJson] using h
      cases l with
      | nil =>
        have hIn : serValD ind (JSVal.varr []) ++ rest = '[' :: ']' :: rest := by
          simp [serValD, serVal, serArr, serElems]
        rw [hIn]
        rw [parseVal.eq_def]
        simp only []
        rw [skipWs_cons_not (by decide)]
        simp [headIs, skipWs_cons_not (show isWsChar ']' = false from by decide)]
      | cons x xs =>
        have hx : isJson x = true ∧ isJsonL xs = true := by
          simpa [isJsonL] using hJ
        have hsL : sizeL (x :: xs) ≤ fuel := by
          simp [sizeV] at hs
          omega
        have hItems := ihL (x :: xs) (ind + 1) ind rest hJ (by simp) hsL
        have hE : serElems (ind + 1) (x :: xs)
            = serValD (ind + 1) x :: List.map (serValD (ind + 1)) xs := by
          simp [serElems_eq_map]
        obtain ⟨t, hT⟩ := joinSep_cons_eq (ind + 1) (serValD (ind + 1) x)
          (List.map (serValD (ind + 1)) xs)
        obtain ⟨c2, cs2, hHead, hw2, hne2, hne3⟩ := serValD_head hx.1 (ind + 1)
        have hFlat : joinSep (ind + 1) (serElems (ind + 1) (x :: xs))
            ++ '\n' :: (indentChars ind ++ ']' :: rest)
            = c2 :: (cs2 ++ (t ++ '\n' :: (indentChars ind ++ ']' :: rest))) := by
          rw [hE, hT, hHead]
          simp
        rw [hFlat] at hItems
        have hIn : serValD ind (JSVal.varr (x :: xs)) ++ rest
            = '[' :: '\n' :: (indentChars (ind + 1)
              ++ (joinSep (ind + 1) (serElems (ind + 1) (x :: xs))
                ++ '\n' :: (indentChars ind ++ ']' :: rest))) := by
          rw [hE]
          simp [serValD, serVal, serArr, hE]
        rw [hIn]
        rw [parseVal.eq_def]
        simp only []
        rw [skipWs_cons_not (by decide)]
        simp only []
        rw [if_pos trivial]
        rw [skipWs_newline, skipWs_indent, hFlat, skipWs_cons_not hw2]
        rw [show headIs ']' (c2 :: (cs2 ++ (t ++ '\n' :: (indentChars ind ++ ']' :: rest))))
          = false from by simp [headIs, hne2]]
        simp only [Bool.false_eq_true, if_false]
        rw [hItems]
        rfl
    | vobj fs =>
      have hJ : isJsonF fs = true := by simpa [isJson] using h
      cases fs with
      | nil =>
        have hIn : serValD ind (JSVal.vobj []) ++ rest = '{' :: '}' :: rest := by
          simp [serValD, serVal, serObj, serMembers]
        rw [hIn]
        rw [parseVal.eq_def]
        simp only []
        rw [skipWs_cons_not (by decide)]
        simp [headIs, skipWs_cons_not (show isWsChar '}' = false from by decide)]
      | cons kv fs2 =>
        obtain ⟨key, v⟩ := kv
        have hsF : sizeF ((key, v) :: fs2) ≤ fuel := by
          simp [sizeV] at hs
          omega
        have hFields := ihF ((key, v) :: fs2) (ind + 1) ind rest hJ (by simp) hsF
        have hM : serMembers (ind + 1) ((key, v) :: fs2)
            = (quoteChars key ++ ':' :: ' ' :: serValD (ind + 1) v)
              :: fs2.map (fun kv => quoteChars kv.1 ++ ':' :: ' ' :: serValD (ind + 1) kv.2) := by
          rw [serMembers_eq_map _ _ hJ]
          simp
        obtain ⟨t, hT⟩ := joinSep_cons_eq (ind + 1)
          (quoteChars key ++ ':' :: ' ' :: serValD (ind + 1) v)
          (fs2.map (fun kv => quoteChars kv.1 ++ ':' :: ' ' :: serValD (ind + 1) kv.2))
        have hFlat : joinSep (ind + 1) (serMembers (ind + 1) ((key, v) :: fs2))
              ++ '\n' :: (indentChars ind ++ '}' :: rest)
            = '"' :: (escapeList key.data ++ ('"' :: (':' :: ' ' :: (serValD (ind + 1) v
              ++ (t ++ '\n' :: (indentChars ind ++ '}' :: rest)))))) := by
          rw [hM, hT]
          simp [quoteChars]
        rw [hFlat] at hFields
        have hIn : serValD ind (JSVal.vobj ((key, v) :: fs2)) ++ rest
            = '{' :: '\n' :: (indentChars (ind + 1)
              ++ (joinSep (ind + 1) (serMembers (ind + 1) ((key, v) :: fs2))
                ++ '\n' :: (indentChars ind ++ '}' :: rest))) := by
          rw [hM]
          simp [serValD, serVal, serObj, hM]
        rw [hIn]
        rw [parseVal.eq_def]
        simp only []
        rw [skipWs_cons_not (by decide)]
        simp only []
        rw [if_pos trivial]
        rw [skipWs_newline, skipWs_indent, hFlat, skipWs_cons_not (by decide)]
        rw [if_neg (by simp [headIs])]
        rw [hFields]
        rfl
  · intro l ind k rest hJ hne hs
    cases l with
    | nil => exact absurd rfl hne
    | cons x xs =>
      have hx : isJson x = true ∧ isJsonL xs = true := by simpa [isJsonL] using hJ
      have hE : serElems ind (x :: xs) = serValD ind x :: List.map (serValD ind) xs := by
        simp [serElems_eq_map]
      cases xs with
      | nil =>
        have hsV : sizeV x ≤ fuel := by
          simp [sizeL] at hs
          omega
        rw [hE]
        simp only [List.map]
        rw [joinSep_single]
        rw [parseItems.eq_def]
        simp only []
        rw [ihV x ind ('\n' :: (indentChars k ++ ']' :: rest)) hx.1 hsV
          (by simp [headNotDigit])]
        simp only []
        rw [skipWs_newline, skipWs_indent, skipWs_cons_not (by decide)]
        rw [if_neg (by simp [headIs]), if_pos (by simp [headIs])]
        rfl
      | cons y ys =>
        have hsV : sizeV x ≤ fuel := by
          simp [sizeL] at hs
          omega
        have hsL2 : sizeL (y :: ys) ≤ fuel := by
          simp [sizeL] at hs ⊢
          omega
        have hE2 : serElems ind (y :: ys) = serValD ind y :: List.map (serValD ind) ys := by
          simp [serElems_eq_map]
        have hShape : joinSep ind (serElems ind (x :: y :: ys))
              ++ '\n' :: (indentChars k ++ ']' :: rest)
            = serValD ind x ++ (',' :: '\n' :: (indentChars ind
              ++ (joinSep ind (serElems ind (y :: ys))
                ++ '\n' :: (indentChars k ++ ']' :: rest)))) := by
          rw [hE, hE2]
          simp only [List.map]
          rw [joinSep_cons2]
          simp
        rw [hShape]
        rw [parseItems.eq_def]
        simp only []
        rw [ihV x ind _ hx.1 hsV (by simp [headNotDigit])]
        simp only []
        rw [skipWs_cons_not (by decide)]
        rw [if_pos (by simp [headIs])]
        simp only [List.tail_cons]
        have hCong : parseItems fuel ('\n' :: (indentChars ind
              ++ (joinSep ind (serElems ind (y :: ys))
                ++ '\n' :: (indentChars k ++ ']' :: rest))))
            = some (y :: ys, rest) := by
          rw [parseItems_congr (show skipWs ('\n' :: (indentChars ind
              ++ (joinSep ind (serElems ind (y :: ys))
                ++ '\n' :: (indentChars k ++ ']' :: rest))))
            = skipWs (joinSep ind (serElems ind (y :: ys))
                ++ '\n' :: (indentChars k ++ ']' :: rest))
            from by rw [skipWs_newline, skipWs_indent]) fuel]
          exact ihL (y :: ys) ind k rest hx.2 (by simp) hsL2
        rw [hCong]
        rfl
  · intro fs ind k rest hJ hne hs
    cases fs with
    | nil => exact absurd rfl hne
    | cons kv fs2 =>
      obtain ⟨key, v⟩ := kv
      have hx : isJson v = true ∧ isJsonF fs2 = true := by simpa [isJsonF] using hJ
      have hsV : sizeV v ≤ fuel := by
        simp [sizeF] at hs
        omega
      have hM : serMembers ind ((key, v) :: fs2)
          = (quoteChars key ++ ':' :: ' ' :: serValD ind v)
            :: fs2.map (fun kv => quoteChars kv.1 ++ ':' :: ' ' :: serValD ind kv.2) := by
        rw [serMembers_eq_map _ _ hJ]
        simp
      cases fs2 with
      | nil =>
        rw [hM]
        simp only [List.map]
        rw [joinSep_single]
        have hShape : (quoteChars key ++ ':' :: ' ' :: serValD ind v)
              ++ '\n' :: (indentChars k ++ '}' :: rest)
            = '"' :: (escapeList key.data ++ '"' :: (':' :: (' ' :: (serValD ind v
              ++ '\n' :: (indentChars k ++ '}' :: rest))))) := by
          simp [quoteChars]
        rw [hShape]
        rw [parseFields.eq_def]
        simp only []
        rw [skipWs_cons_not (by decide)]
        rw [if_pos (by simp [headIs])]
        simp only [List.tail_cons]
        rw [parseStringBody_escape]
        simp only []
        rw [skipWs_cons_not (by decide)]
        rw [if_pos (by simp [headIs])]
        simp only [List.tail_cons]
        rw [parseVal_congr (skipWs_space _) fuel]
        rw [ihV v ind ('\n' :: (indentChars k ++ '}' :: rest)) hx.1 hsV
          (by simp [headNotDigit])]
        simp only []
        rw [skipWs_newline, skipWs_indent, skipWs_cons_not (by decide)]
        rw [if_neg (by simp [headIs]), if_pos (by simp [headIs])]
        simp [strMk_data]
      | cons kv2 fs3 =>
        have hsF2 : sizeF (kv2 :: fs3) ≤ fuel := by
          simp [sizeF] at hs ⊢
          omega
        have hM2 : serMembers ind (kv2 :: fs3)
            = (quoteChars kv2.1 ++ ':' :: ' ' :: serValD ind kv2.2)
              :: fs3.map (fun kv => quoteChars kv.1 ++ ':' :: ' ' :: serValD ind kv.2) := by
          rw [serMembers_eq_map _ _ hx.2]
          simp
        have hShape : joinSep ind (serMembers ind ((key, v) :: kv2 :: fs3))
              ++ '\n' :: (indentChars k ++ '}' :: rest)
            = '"' :: (escapeList key.data ++ '"' :: (':' :: (' ' :: (serValD ind v
              ++ (',' :: '\n' :: (indentChars ind
                ++ (joinSep ind (serMembers ind (kv2 :: fs3))
                  ++ '\n' :: (indentChars k ++ '}' :: rest)))))))) := by
          rw [hM, hM2]
          simp only [List.map]
          rw [joinSep_cons2]
          simp [quoteChars]
        rw [hShape]
        rw [parseFields.eq_def]
        simp only []
        rw [skipWs_cons_not (by decide)]
        rw [if_pos (by simp [headIs])]
        simp only [List.tail_cons]
        rw [parseStringBody_escape]
        simp only []
        rw [skipWs_cons_not (by decide)]
        rw [if_pos (by simp [headIs])]
        simp only [List.tail_cons]
        rw [parseVal_congr (skipWs_space _) fuel]
        rw [ihV v ind _ hx.1 hsV (by simp [headNotDigit])]
        simp only []
        rw [skipWs_cons_not (by decide)]
        rw [if_pos (by simp [headIs])]
        simp only [List.tail_cons]
        have hCong : parseFields fuel ('\n' :: (indentChars ind
              ++ (joinSep ind (serMembers ind (kv2 :: fs3))
                ++ '\n' :: (indentChars k ++ '}' :: rest))))
            = some (kv2 :: fs3, rest) := by
          rw [parseFields_congr (show skipWs ('\n' :: (indentChars ind
              ++ (joinSep ind (serMembers ind (kv2 :: fs3))
                ++ '\n' :: (indentChars k ++ '}' :: rest))))
            = skipWs (joinSep ind (serMembers ind (kv2 :: fs3))
                ++ '\n' :: (indentChars k ++ '}' :: rest))
            from by rw [skipWs_newline, skipWs_indent]) fuel]
          exact ihF (kv2 :: fs3) ind k rest hx.2 (by simp) hsF2
        rw [hCong]
        simp [strMk_data]

set_option maxHeartbeats 1000000 in
theorem size_le (n : Nat) :
    (∀ v ind, isJson v = true → sizeV v ≤ n → sizeV v ≤ (serValD ind v).length) ∧
    (∀ l ind, isJsonL l = true → l ≠ [] → sizeL l ≤ n →
      sizeL l ≤ (joinSep ind (serElems ind l)).length + 2) ∧
    (∀ fs ind, isJsonF fs = true → fs ≠ [] → sizeF fs ≤ n →
      sizeF fs ≤ (joinSep ind (serMembers ind fs)).length + 2) := by
  induction n using Nat.strong_induction_on with
  | _ n ih =>
  cases n with
  | zero =>
    refine ⟨?_, ?_, ?_⟩
    · intro v ind h hs
      have := sizeV_pos v
      omega
    · intro l ind h hne hs
      have := sizeL_pos l
      omega
    · intro fs ind h hne hs
      have := sizeF_pos fs
      omega
  | succ n =>
  have ihV := (ih n (by omega)).1
  have ihL := (ih n (by omega)).2.1
  have ihF := (ih n (by omega)).2.2
  refine ⟨?_, ?_, ?_⟩
  · intro v ind h hs
    cases v with
    | vundefined => simp [isJson] at h
    | vfunc kk r => simp [isJson] at h
    | vnull => simp [serValD, serVal, sizeV]
    | vbool b => cases b <;> simp [serValD, serVal, sizeV]
    | vnum m =>
      have : intChars m ≠ [] := by
        by_cases hm : m < 0
        · simp [intChars, hm]
        · simp [intChars, hm, natDigits_ne_nil]
      have hlen : 1 ≤ (intChars m).length := by
        cases hI : intChars m with
        | nil => exact absurd hI this
        | cons a as => simp
      simp [serValD, serVal, sizeV]
      omega
    | vstr s => simp [serValD, serVal, sizeV, quoteChars]
    | varr l =>
      have hJ : isJsonL l = true := by simpa [isJson] using h
      cases l with
      | nil => simp [serValD, serVal, serArr, serElems, sizeV, sizeL]
      | cons x xs =>
        have hsL : sizeL (x :: xs) ≤ n := by
          simp [sizeV] at hs
          omega
        have hB := ihL (x :: xs) (ind + 1) hJ (by simp) hsL
        have hE : serElems (ind + 1) (x :: xs)
            = serValD (ind + 1) x :: List.map (serValD (ind + 1)) xs := by
          simp [serElems_eq_map]
        have hD : serValD ind (JSVal.varr (x :: xs))
            = '[' :: '\n' :: (indentChars (ind + 1)
              ++ (joinSep (ind + 1) (serElems (ind + 1) (x :: xs))
                ++ '\n' :: (indentChars ind ++ [']']))) := by
          rw [hE]
          simp [serValD, serVal, serArr, hE]
        rw [hD]
        simp only [sizeV, List.length_cons, List.length_append, indentChars,
          List.length_replicate]
        simp [sizeV] at hs ⊢
        omega
    | vobj fs =>
      have hJ : isJsonF fs = true := by simpa [isJson] using h
      cases fs with
      | nil => simp [serValD, serVal, serObj, serMembers, sizeV, sizeF]
      | cons kv fs2 =>
        have hsF : sizeF (kv :: fs2) ≤ n := by
          simp [sizeV] at hs
          omega
        have hB := ihF (kv :: fs2) (ind + 1) hJ (by simp) hsF
        have hM : serMembers (ind + 1) (kv :: fs2)
            = (quoteChars kv.1 ++ ':' :: ' ' :: serValD (ind + 1) kv.2)
              :: fs2.map (fun p => quoteChars p.1 ++ ':' :: ' ' :: serValD (ind + 1) p.2) := by
          rw [serMembers_eq_map _ _ hJ]
          simp
        have hD : serValD ind (JSVal.vobj (kv :: fs2))
            = '{' :: '\n' :: (indentChars (ind + 1)
              ++ (joinSep (ind + 1) (serMembers (ind + 1) (kv :: fs2))
                ++ '\n' :: (indentChars ind ++ ['}']))) := by
          rw [hM]
          simp [serValD, serVal, serObj, hM]
        rw [hD]
        simp only [sizeV, List.length_cons, List.length_append, indentChars,
          List.length_replicate]
        simp [sizeV] at hs ⊢
        omega
  · intro l ind h hne hs
    cases l with
    | nil => exact absurd rfl hne
    | cons x xs =>
      have hx : isJson x = true ∧ isJsonL xs = true := by simpa [isJsonL] using h
      have hE : serElems ind (x :: xs) = serValD ind x :: List.map (serValD ind) xs := by
        simp [serElems_eq_map]
      cases xs with
      | nil =>
        have hsV : sizeV x ≤ n := by
          simp [sizeL] at hs
          omega
        have hA := ihV x ind hx.1 hsV
        rw [hE]
        simp only [List.map, joinSep_single]
        simp [sizeL]
        omega
      | cons y ys =>
        have hsV : sizeV x ≤ n := by
          simp [sizeL] at hs
          omega
        have hsL2 : sizeL (y :: ys) ≤ n := by
          simp [sizeL] at hs ⊢
          omega
        have hA := ihV x ind hx.1 hsV
        have hB := ihL (y :: ys) ind hx.2 (by simp) hsL2
        have hE2 : serElems ind (y :: ys) = serValD ind y :: List.map (serValD ind) ys := by
          simp [serElems_eq_map]
        rw [hE]
        simp only [List.map]
        rw [joinSep_cons2]
        rw [hE2] at hB
        simp only [List.length_append, List.length_cons, indentChars, List.length_replicate]
        simp [sizeL] at hs hB ⊢
        omega
  · intro fs ind h hne hs
    cases fs with
    | nil => exact absurd rfl hne
    | cons kv fs2 =>
      obtain ⟨k0, v0⟩ := kv
      have hx : isJson v0 = true ∧ isJsonF fs2 = true := by simpa [isJsonF] using h
      have hM : serMembers ind ((k0, v0) :: fs2)
          = (quoteChars k0 ++ ':' :: ' ' :: serValD ind v0)
            :: fs2.map (fun p => quoteChars p.1 ++ ':' :: ' ' :: serValD ind p.2) := by
        rw [serMembers_eq_map _ _ h]
        simp
      cases fs2 with
      | nil =>
        have hsV : sizeV v0 ≤ n := by
          simp [sizeF] at hs
          omega
        have hA := ihV v0 ind hx.1 hsV
        rw [hM]
        simp only [List.map, joinSep_single]
        simp [sizeF, quoteChars] at hs ⊢
        omega
      | cons kv2 fs3 =>
        have hsV : sizeV v0 ≤ n := by
          simp [sizeF] at hs
          omega
        have hsF2 : sizeF (kv2 :: fs3) ≤ n := by
          obtain ⟨k1, v1⟩ := kv2
          simp [sizeF] at hs ⊢
          omega
        have hA := ihV v0 ind hx.1 hsV
        have hB := ihF (kv2 :: fs3) ind hx.2 (by simp) hsF2
        have hM2 : serMembers ind (kv2 :: fs3)
            = (quoteChars kv2.1 ++ ':' :: ' ' :: serValD ind kv2.2)
              :: fs3.map (fun p => quoteChars p.1 ++ ':' :: ' ' :: serValD ind p.2) := by
          rw [serMembers_eq_map _ _ hx.2]
          simp
        rw [hM]
        simp only [List.map]
        rw [joinSep_cons2]
        rw [hM2] at hB
        simp only [List.length_append, List.length_cons, indentChars, List.length_replicate]
        obtain ⟨k1, v1⟩ := kv2
        simp [sizeF, quoteChars] at hs hB ⊢
        omega

theorem jsonStringify_eq {v : JSVal} (h : isJson v = true) :
    jsonStringify v = String.mk (serValD 0 v) := by
  simp only [jsonStringify]
  rw [serVal_eq_some h]
  rfl

/-- `JSON.parse` recovers exactly the serialized value: the write/parse
roundtrip over the embedding's JSON value domain. -/
theorem jsonParse_stringify {v : JSVal} (h : isJson v = true) :
    jsonParse (jsonStringify v) = some v := by
  rw [jsonStringify_eq h]
  have hlen : (String.mk (serValD 0 v)).length = (serValD 0 v).length := rfl
  have hdata : (String.mk (serValD 0 v)).data = serValD 0 v := rfl
  have hA := (size_le (sizeV v)).1 v 0 h le_rfl
  have hP := (parse_ser ((serValD 0 v).length + 1)).1 v 0 [] h (by omega)
    (by simp [headNotDigit])
  rw [List.append_nil] at hP
  unfold jsonParse
  rw [hlen, hdata, hP]
  simp [skipWs]


/-! ## Message containment -/

theorem strContains_of_infix {s p : String} (h : p.data <:+: s.data) :
    strContains s p = true := by
  simp [strContains, h]

theorem invalidExportMsg_contains (p : String) (v : JSVal) :
    strContains (invalidExportMsg p v) p = true := by
  apply strContains_of_infix
  exact ⟨"Failed to import actorspec from path ".data,
    (", got " ++ jsToString v ++ " instead").data, by simp [invalidExportMsg]⟩

theorem unresolvedMsg_contains (p : String) (v : JSVal) :
    strContains (unresolvedMsg p v) p = true := by
  apply strContains_of_infix
  exact ⟨"Failed to import actorspec from path ".data,
    (", the import did not resolve to object, got " ++ jsToString v ++ " instead").data,
    by simp [unresolvedMsg]⟩

theorem missingVersionMsg_contains (p : String) :
    strContains (missingVersionMsg p) p = true := by
  apply strContains_of_infix
  exact ⟨"Invalid actorspec object imported from path ".data,
    ", config.actorspecVersion is missing".data, by simp [missingVersionMsg]⟩


/-! ## Evaluation lemmas for the pipeline branches -/

theorem generate_require_error (args : GenArgs) (env : Env) (e : String)
    (h : env.require (resolvePath env.cwd env.modulePath args.config) = .error e) :
    (generate args env).result = .error e ∧ (generate args env).writes = []
      ∧ (generate args env).mkdirs = [] := by
  simp [generate, h]

theorem generate_invalid_export_eval (args : GenArgs) (env : Env) (v : JSVal)
    (hreq : env.require (resolvePath env.cwd env.modulePath args.config) = .ok v)
    (hbad : (!truthy v || !(["function", "object"].contains (typeof v))) = true) :
    (generate args env).result = .error (invalidExportMsg (absPath env.cwd args.config) v)
      ∧ (generate args env).writes = [] ∧ (generate args env).mkdirs = [] := by
  simp only [generate, hreq]
  rw [if_pos hbad]
  simp

theorem generate_unresolved_eval (args : GenArgs) (env : Env) (v : JSVal)
    (hreq : env.require (resolvePath env.cwd env.modulePath args.config) = .ok v)
    (h1 : (!truthy v || !(["function", "object"].contains (typeof v))) = false)
    (h2 : (!truthy (if typeof v == "function" then callAwait v else v)
        || !(typeof v == "object")) = true) :
    (generate args env).result = .error (unresolvedMsg (absPath env.cwd args.config) v)
      ∧ (generate args env).writes = [] ∧ (generate args env).mkdirs = [] := by
  simp only [generate, hreq]
  rw [if_neg (by simp only [h1]; decide), if_pos h2]
  simp

theorem generate_missing_version_eval (args : GenArgs) (env : Env) (v : JSVal)
    (hreq : env.require (resolvePath env.cwd env.modulePath args.config) = .ok v)
    (h1 : (!truthy v || !(["function", "object"].contains (typeof v))) = false)
    (h2 : (!truthy (if typeof v == "function" then callAwait v else v)
        || !(typeof v == "object")) = false)
    (h3 : (!truthy (getProp (if typeof v == "function" then callAwait v else v)
        "actorspecVersion")) = true) :
    (generate args env).result = .error (missingVersionMsg (absPath env.cwd args.config))
      ∧ (generate args env).writes = [] ∧ (generate args env).mkdirs = [] := by
  simp only [generate, hreq]
  rw [if_neg (by simp only [h1]; decide), if_neg (by simp only [h2]; decide), if_pos h3]
  simp

theorem generate_success_eval (args : GenArgs) (env : Env) (v : JSVal)
    (hreq : env.require (resolvePath env.cwd env.modulePath args.config) = .ok v)
    (h1 : (!truthy v || !(["function", "object"].contains (typeof v))) = false)
    (h2 : (!truthy (if typeof v == "function" then callAwait v else v)
        || !(typeof v == "object")) = false)
    (h3 : (!truthy (getProp (if typeof v == "function" then callAwait v else v)
        "actorspecVersion")) = false)
    (hmk : env.mkdir (absPath env.cwd (resolveOutDir args.outDir
        (env.existsSync (absPath env.cwd "./.actor")))) = .ok ())
    (hwr : env.writeFile (pathResolve (absPath env.cwd (resolveOutDir args.outDir
          (env.existsSync (absPath env.cwd "./.actor")))) "actorspec.json")
        (jsonStringify (if typeof v == "function" then callAwait v else v)) = .ok ()) :
    (generate args env).result = .ok ()
      ∧ (generate args env).writes
          = [(pathResolve (absPath env.cwd (resolveOutDir args.outDir
              (env.existsSync (absPath env.cwd "./.actor")))) "actorspec.json",
              jsonStringify (if typeof v == "function" then callAwait v else v))]
      ∧ (generate args env).mkdirs
          = [absPath env.cwd (resolveOutDir args.outDir
              (env.existsSync (absPath env.cwd "./.actor")))] := by
  simp only [generate, hreq]
  rw [if_neg (by simp only [h1]; decide), if_neg (by simp only [h2]; decide), if_neg (by simp only [h3]; decide)]
  simp only [hmk, hwr]
  simp

/-! ## Claim theorems -/

/-- C8: the absolute-path helper is `resolve(cwd, path)` and the
loader-relative helper re-expresses that absolute path relative to the
pipeline module's own directory; both are pure string functions (they take
no filesystem and cannot check existence). -/
theorem absPath_resolvePath_match_spec (cwd modulePath p : String) :
    absPath cwd p = toAbsolute_spec cwd p
    ∧ resolvePath cwd modulePath p = toLoaderRelative_spec cwd modulePath p :=
  ⟨rfl, rfl⟩

/-- C9: an empty-string `outDir` behaves exactly like an omitted one — the
whole observable outcome of `generate` coincides. -/
theorem generate_empty_outDir_eq_none (c : String) (s : Bool) (env : Env) :
    generate { config := c, outDir := some "", silent := s } env
      = generate { config := c, outDir := none, silent := s } env := rfl

/-- C10: the `silent` flag changes neither the result, nor the attempted
directory creations, nor the written files (path and bytes); it only
suppresses the log lines. -/
theorem generate_silent_only_affects_logs (c : String) (o : Option String) (env : Env) :
    (generate { config := c, outDir := o, silent := true } env).result
        = (generate { config := c, outDir := o, silent := false } env).result
    ∧ (generate { config := c, outDir := o, silent := true } env).writes
        = (generate { config := c, outDir := o, silent := false } env).writes
    ∧ (generate { config := c, outDir := o, silent := true } env).mkdirs
        = (generate { config := c, outDir := o, silent := false } env).mkdirs
    ∧ (generate { config := c, outDir := o, silent := true } env).logs = [] := by
  simp only [generate]
  cases env.require (resolvePath env.cwd env.modulePath c) with
  | error e => simp
  | ok v =>
    simp only []
    generalize (if typeof v == "function" then callAwait v else v) = r
    split_ifs with h1 h2 h3 <;> try simp
    all_goals
      cases env.mkdir (absPath env.cwd (resolveOutDir o
          (env.existsSync (absPath env.cwd "./.actor")))) with
      | error e => simp
      | ok u =>
        cases env.writeFile (pathResolve (absPath env.cwd (resolveOutDir o
            (env.existsSync (absPath env.cwd "./.actor")))) "actorspec.json")
            (jsonStringify r) with
        | error e => simp
        | ok u2 => simp

/-- C1 (code-bug evidence): a synchronous factory whose call yields a valid
config (truthy, object-typed, with `actorspecVersion: 1`) still makes
`generate` throw the "did not resolve to object" error and write nothing,
because line 50 of the source tests `typeof configOrInit` — the original
export, a function — instead of the resolved value.  The spec's factory
transparency is the evident intent; the code contradicts it. -/
theorem generate_sync_factory_rejected :
    truthy (callAwait (JSVal.vfunc .syncF sampleConfig)) = true
    ∧ typeof (callAwait (JSVal.vfunc .syncF sampleConfig)) = "object"
    ∧ getProp (callAwait (JSVal.vfunc .syncF sampleConfig)) "actorspecVersion" = JSVal.vnum 1
    ∧ (generate { config := "actorspec.js" } (okEnv (.vfunc .syncF sampleConfig))).result
        = .error (unresolvedMsg (absPath "/home/user/proj" "actorspec.js")
            (.vfunc .syncF sampleConfig))
    ∧ (generate { config := "actorspec.js" } (okEnv (.vfunc .syncF sampleConfig))).writes
        = [] :=
  ⟨rfl, rfl, rfl, rfl, rfl⟩

/-- C2 (code-bug evidence): an asynchronous factory resolving to a truthy
object still triggers the `UnresolvedConfigError` branch, so the error is
raised based on the original export's type rather than exactly on the
resolved value being falsy or non-object as the spec states. -/
theorem generate_resolve_check_tests_wrong_value :
    truthy (callAwait (JSVal.vfunc .asyncF (JSVal.vobj [("a", JSVal.vnum 1)]))) = true
    ∧ typeof (callAwait (JSVal.vfunc .asyncF (JSVal.vobj [("a", JSVal.vnum 1)]))) = "object"
    ∧ (generate { config := "cfg.js" }
          (okEnv (.vfunc .asyncF (JSVal.vobj [("a", JSVal.vnum 1)])))).result
        = .error (unresolvedMsg (absPath "/home/user/proj" "cfg.js")
            (.vfunc .asyncF (JSVal.vobj [("a", JSVal.vnum 1)])))
    ∧ (generate { config := "cfg.js" }
          (okEnv (.vfunc .asyncF (JSVal.vobj [("a", JSVal.vnum 1)])))).writes = [] :=
  ⟨rfl, rfl, rfl, rfl⟩

/-- C3 (counterexample): when the module load itself throws, the exception
propagates unchanged, so a load failure whose message is just `"boom"`
makes `generate` fail with a message that does not contain the absolute
config path. -/
theorem generate_import_error_message_counterexample :
    (generate { config := "cfg.js" } (failEnv "boom")).result = .error "boom"
    ∧ strContains "boom" (absPath "/home/user/proj" "cfg.js") = false :=
  ⟨rfl, by decide⟩

/-- C3 (amended): the errors `generate` raises itself (invalid export,
unresolved config, missing version) always carry the absolute config path
in their message; errors thrown by the module load are propagated with
their original message unchanged (and similarly filesystem errors are
propagated, which the success-filesystem hypotheses exclude here). -/
theorem generate_error_messages_contain_path (args : GenArgs) (env : Env) :
    (∀ e, env.require (resolvePath env.cwd env.modulePath args.config) = .error e →
      (generate args env).result = .error e) ∧
    (∀ v e, env.require (resolvePath env.cwd env.modulePath args.config) = .ok v →
      (∀ p, env.mkdir p = .ok ()) → (∀ p c2, env.writeFile p c2 = .ok ()) →
      (generate args env).result = .error e →
      strContains e (absPath env.cwd args.config) = true) := by
  constructor
  · intro e he
    exact (generate_require_error args env e he).1
  · intro v e hreq hmk hwr hfail
    by_cases h1 : (!truthy v || !(["function", "object"].contains (typeof v))) = true
    · rw [(generate_invalid_export_eval args env v hreq h1).1] at hfail
      injection hfail with h
      rw [← h]
      exact invalidExportMsg_contains _ _
    · have h1f : (!truthy v || !(["function", "object"].contains (typeof v))) = false := by
        simpa using h1
      by_cases h2 : (!truthy (if typeof v == "function" then callAwait v else v)
          || !(typeof v == "object")) = true
      · rw [(generate_unresolved_eval args env v hreq h1f h2).1] at hfail
        injection hfail with h
        rw [← h]
        exact unresolvedMsg_contains _ _
      · have h2f : (!truthy (if typeof v == "function" then callAwait v else v)
            || !(typeof v == "object")) = false := by
          simpa using h2
        by_cases h3 : (!truthy (getProp (if typeof v == "function" then callAwait v else v)
            "actorspecVersion")) = true
        · rw [(generate_missing_version_eval args env v hreq h1f h2f h3).1] at hfail
          injection hfail with h
          rw [← h]
          exact missingVersionMsg_contains _
        · have h3f : (!truthy (getProp (if typeof v == "function" then callAwait v else v)
              "actorspecVersion")) = false := by
            simpa using h3
          rw [(generate_success_eval args env v hreq h1f h2f h3f (hmk _) (hwr _ _)).1] at hfail
          exact absurd hfail (by simp)

/-- Witness for C3's amended theorem: a propagated load error keeps its
message, and an internally raised missing-version error contains the
absolute config path. -/
theorem generate_error_messages_contain_path_witness :
    (generate { config := "cfg.js" } (failEnv "boom")).result = .error "boom"
    ∧ strContains (missingVersionMsg (absPath "/home/user/proj" "cfg.js"))
        (absPath "/home/user/proj" "cfg.js") = true :=
  ⟨(generate_error_messages_contain_path { config := "cfg.js" } (failEnv "boom")).1 "boom" rfl,
   (generate_error_messages_contain_path { config := "cfg.js" } (okEnv (.vobj []))).2
     (.vobj []) (missingVersionMsg (absPath "/home/user/proj" "cfg.js")) rfl
     (fun _ => rfl) (fun _ _ => rfl) rfl⟩

/-- C4 (counterexample): an array default export does not raise
`InvalidExportError` — in JS `typeof` of an array is `"object"`, so it
passes the export check and fails the later version check instead. -/
theorem generate_array_export_counterexample :
    (generate { config := "cfg.js" } (okEnv (.varr [.vstr "x"]))).result
        = .error (missingVersionMsg (absPath "/home/user/proj" "cfg.js"))
    ∧ missingVersionMsg (absPath "/home/user/proj" "cfg.js")
        ≠ invalidExportMsg (absPath "/home/user/proj" "cfg.js") (.varr [.vstr "x"]) :=
  ⟨rfl, by decide⟩

/-- C4 (amended): `generate` raises `InvalidExportError` (before any
filesystem effect) exactly for a default export that is falsy or whose
`typeof` is neither `"function"` nor `"object"` — this rejects `null`,
numbers and strings; arrays, however, are truthy values of `typeof`
`"object"`, so they pass this check. -/
theorem generate_invalid_export_domain (args : GenArgs) (env : Env) (v : JSVal)
    (hreq : env.require (resolvePath env.cwd env.modulePath args.config) = .ok v)
    (hbad : truthy v = false ∨ ["function", "object"].contains (typeof v) = false) :
    ((generate args env).result = .error (invalidExportMsg (absPath env.cwd args.config) v)
      ∧ (generate args env).writes = [] ∧ (generate args env).mkdirs = [])
    ∧ (∀ l : List JSVal, truthy (JSVal.varr l) = true
        ∧ ["function", "object"].contains (typeof (JSVal.varr l)) = true) := by
  constructor
  · apply generate_invalid_export_eval args env v hreq
    rcases hbad with h | h <;> (simp only [h]; simp)
  · intro l
    exact ⟨rfl, rfl⟩

/-- Witness for C4's amended theorem at a `null` export. -/
theorem generate_invalid_export_domain_witness :
    (generate { config := "cfg.js" } (okEnv .vnull)).result
        = .error (invalidExportMsg (absPath "/home/user/proj" "cfg.js") .vnull)
    ∧ (generate { config := "cfg.js" } (okEnv .vnull)).writes = []
    ∧ (generate { config := "cfg.js" } (okEnv .vnull)).mkdirs = [] :=
  (generate_invalid_export_domain { config := "cfg.js" } (okEnv .vnull) .vnull rfl
    (Or.inl rfl)).1

/-- C5: for a directly exported config object, `generate` raises
`MissingVersionError` and writes nothing exactly when `actorspecVersion`
is absent or falsy; when it is truthy the run (with a working filesystem)
completes without this error. -/
theorem generate_version_check (args : GenArgs) (env : Env) (fields : List (String × JSVal))
    (hreq : env.require (resolvePath env.cwd env.modulePath args.config) = .ok (.vobj fields))
    (hmk : ∀ p, env.mkdir p = .ok ()) (hwr : ∀ p c2, env.writeFile p c2 = .ok ()) :
    (truthy (getProp (JSVal.vobj fields) "actorspecVersion") = false →
      (generate args env).result = .error (missingVersionMsg (absPath env.cwd args.config))
      ∧ (generate args env).writes = [] ∧ (generate args env).mkdirs = []) ∧
    (truthy (getProp (JSVal.vobj fields) "actorspecVersion") = true →
      (generate args env).result = .ok ()) := by
  constructor
  · intro hv
    exact generate_missing_version_eval args env _ hreq rfl rfl (by simp [typeof, hv])
  · intro hv
    exact (generate_success_eval args env _ hreq rfl rfl (by simp [typeof, hv])
      (hmk _) (hwr _ _)).1

/-- Witness for C5: `actorspecVersion: 0` yields the missing-version
error and no write; `sampleConfig` (version 1) completes. -/
theorem generate_version_check_witness :
    ((generate { config := "cfg.js" } (okEnv (.vobj [("actorspecVersion", .vnum 0)]))).result
        = .error (missingVersionMsg (absPath "/home/user/proj" "cfg.js"))
      ∧ (generate { config := "cfg.js" }
          (okEnv (.vobj [("actorspecVersion", .vnum 0)]))).writes = []
      ∧ (generate { config := "cfg.js" }
          (okEnv (.vobj [("actorspecVersion", .vnum 0)]))).mkdirs = [])
    ∧ (generate { config := "cfg.js" } (okEnv sampleConfig)).result = .ok () :=
  ⟨(generate_version_check { config := "cfg.js" }
      (okEnv (.vobj [("actorspecVersion", .vnum 0)]))
      [("actorspecVersion", .vnum 0)] rfl (fun _ => rfl) (fun _ _ => rfl)).1 rfl,
   (generate_version_check { config := "cfg.js" } (okEnv sampleConfig)
      [("actorspecVersion", .vnum 1), ("actor", .vobj [("title", .vstr "Demo")])]
      rfl (fun _ => rfl) (fun _ _ => rfl)).2 rfl⟩

/-- C6: the output directory is the caller's `outDir` whenever one is
supplied (nonempty), regardless of `.actor` existence; otherwise `.actor`
under CWD when present, else CWD itself; and the file written is always
`actorspec.json` resolved inside that directory. -/
theorem generate_output_location (args : GenArgs) (env : Env) (fields : List (String × JSVal))
    (hreq : env.require (resolvePath env.cwd env.modulePath args.config) = .ok (.vobj fields))
    (hver : truthy (getProp (JSVal.vobj fields) "actorspecVersion") = true)
    (hmk : ∀ p, env.mkdir p = .ok ()) (hwr : ∀ p c2, env.writeFile p c2 = .ok ()) :
    (∀ s e, s ≠ "" → resolveOutDir (some s) e = s)
    ∧ (∀ e, resolveOutDir none e = if e then "./.actor" else ".")
    ∧ (generate args env).writes
        = [(pathResolve (absPath env.cwd (resolveOutDir args.outDir
            (env.existsSync (absPath env.cwd "./.actor")))) "actorspec.json",
            jsonStringify (JSVal.vobj fields))] := by
  refine ⟨?_, ?_, ?_⟩
  · intro s e hs
    simp [resolveOutDir, optTruthy, hs]
  · intro e
    cases e <;> simp [resolveOutDir, optTruthy]
  · exact (generate_success_eval args env _ hreq rfl rfl (by simp [typeof, hver])
      (hmk _) (hwr _ _)).2.1

/-- Witness for C6: with `outDir := "out"` and a `.actor` directory
present, the file is still written under `out`. -/
theorem generate_output_location_witness :
    (generate { config := "cfg.js", outDir := some "out" }
        { okEnv sampleConfig with existsSync := fun _ => true }).writes
      = [(pathResolve (absPath "/home/user/proj" (resolveOutDir (some "out")
          (({ okEnv sampleConfig with existsSync := fun _ => true } : Env).existsSync
            (absPath "/home/user/proj" "./.actor")))) "actorspec.json",
          jsonStringify sampleConfig)] :=
  (generate_output_location { config := "cfg.js", outDir := some "out" }
    { okEnv sampleConfig with existsSync := fun _ => true }
    [("actorspecVersion", .vnum 1), ("actor", .vobj [("title", .vstr "Demo")])]
    rfl rfl (fun _ => rfl) (fun _ _ => rfl)).2.2

/-- C7: for a directly exported JSON object with a truthy version,
`generate` writes exactly `JSON.stringify(config, null, 2)` — members in
the object's own key order with two-space indentation, as fixed by the
definition of `jsonStringify` — and parsing the written content recovers
the exported object, fields and order intact. -/
theorem generate_json_output_roundtrip (args : GenArgs) (env : Env)
    (fields : List (String × JSVal))
    (hreq : env.require (resolvePath env.cwd env.modulePath args.config) = .ok (.vobj fields))
    (hjson : isJson (JSVal.vobj fields) = true)
    (hver : truthy (getProp (JSVal.vobj fields) "actorspecVersion") = true)
    (hmk : ∀ p, env.mkdir p = .ok ()) (hwr : ∀ p c2, env.writeFile p c2 = .ok ()) :
    (generate args env).writes
        = [(pathResolve (absPath env.cwd (resolveOutDir args.outDir
            (env.existsSync (absPath env.cwd "./.actor")))) "actorspec.json",
            jsonStringify (JSVal.vobj fields))]
    ∧ jsonParse (jsonStringify (JSVal.vobj fields)) = some (JSVal.vobj fields) := by
  refine ⟨?_, jsonParse_stringify hjson⟩
  exact (generate_success_eval args env _ hreq rfl rfl (by simp [typeof, hver])
    (hmk _) (hwr _ _)).2.1

/-- Witness for C7 at `sampleConfig`. -/
theorem generate_json_output_roundtrip_witness :
    (generate { config := "cfg.js" } (okEnv sampleConfig)).writes
        = [(pathResolve (absPath "/home/user/proj" (resolveOutDir none
            ((okEnv sampleConfig).existsSync (absPath "/home/user/proj" "./.actor"))))
            "actorspec.json", jsonStringify sampleConfig)]
    ∧ jsonParse (jsonStringify sampleConfig) = some sampleConfig :=
  generate_json_output_roundtrip { config := "cfg.js" } (okEnv sampleConfig)
    [("actorspecVersion", .vnum 1), ("actor", .vobj [("title", .vstr "Demo")])]
    rfl rfl rfl (fun _ => rfl) (fun _ _ => rfl)

end ActorSpec
